import Mathlib

/-!
Shallow embedding of the vbcrender core (Tree model, events, VbcReader
queues, OpenGL render-task queue) in Lean 4, with theorems checking the
natural-language specification against the code.

Conventions:
* C++ `double` scalars are modelled exactly as dyadic rationals `Scal`
  (every finite IEEE double is a dyadic rational, and the modelled code
  only adds, subtracts, multiplies and halves, which keeps the values
  dyadic with no rounding); values that can genuinely be IEEE infinities
  (the tree bounds `lb_`/`ub_` and the bounding-box initialisation in
  `aggregate_layout`) use the extended type `Ext`.
* Heap nodes are stored arena-style: `index_ : List (Option Node)` mirrors
  `std::vector<NodePtr> index_`, children lists hold sequence numbers, and
  the parent pointer `NodeBase*` becomes `Option (Option Nat)`
  (`none` = nullptr, `some none` = the `Tree` object, `some (some s)` =
  node `s`).
* C++ exceptions become `Except (TreeErr × Tree)`: the error carries the
  tree state at the throw point, so "no partial mutation" is expressible.
* Unbounded imperative loops (`local_layout` work list, contour tracing,
  pre-order walks) are translated with an explicit fuel parameter and
  return `none` on fuel exhaustion.
-/

deriving instance DecidableEq for Except

namespace Vbc

/-- A dyadic rational `num / 2 ^ exp`, the exact value domain of finite
IEEE doubles (without the range/precision bounds, which the modelled
code never reaches). Values are kept normalized (`num` odd or
`exp = 0`), so structural equality is value equality. -/
structure Scal where
  num : Int
  exp : Nat
deriving DecidableEq, Repr

/-- Normalize `n / 2 ^ e` by cancelling factors of two. -/
def dyadicNorm : Int → Nat → Scal
  | n, 0 => ⟨n, 0⟩
  | n, e + 1 => if n % 2 = 0 then dyadicNorm (n / 2) e else ⟨n, e + 1⟩

instance : OfNat Scal n := ⟨⟨Int.ofNat n, 0⟩⟩

def Scal.add (a b : Scal) : Scal :=
  let e := Nat.max a.exp b.exp
  dyadicNorm (a.num * 2 ^ (e - a.exp) + b.num * 2 ^ (e - b.exp)) e

def Scal.neg (a : Scal) : Scal := ⟨-a.num, a.exp⟩

def Scal.mul (a b : Scal) : Scal :=
  dyadicNorm (a.num * b.num) (a.exp + b.exp)

/-- Division by two (the only division the modelled code performs). -/
def Scal.half (a : Scal) : Scal := dyadicNorm a.num (a.exp + 1)

instance : Add Scal := ⟨Scal.add⟩
instance : Neg Scal := ⟨Scal.neg⟩
instance : Sub Scal := ⟨fun a b => a + (-b)⟩
instance : Mul Scal := ⟨Scal.mul⟩

/-- The order on dyadic rationals, by cross multiplication. -/
def Scal.lt (a b : Scal) : Prop := a.num * 2 ^ b.exp < b.num * 2 ^ a.exp

def Scal.le (a b : Scal) : Prop := a.num * 2 ^ b.exp ≤ b.num * 2 ^ a.exp

instance : LT Scal := ⟨Scal.lt⟩
instance : LE Scal := ⟨Scal.le⟩

instance (a b : Scal) : Decidable (a < b) :=
  inferInstanceAs (Decidable (a.num * 2 ^ b.exp < b.num * 2 ^ a.exp))

instance (a b : Scal) : Decidable (a ≤ b) :=
  inferInstanceAs (Decidable (a.num * 2 ^ b.exp ≤ b.num * 2 ^ a.exp))

/-- `std::min(a, b)`: `(b < a) ? b : a`. -/
def Scal.min (a b : Scal) : Scal := if b < a then b else a

/-- `std::max(a, b)`: `(a < b) ? b : a`. -/
def Scal.max (a b : Scal) : Scal := if a < b then b else a

/-- A C++ `double` that may be `±infinity` (no NaNs arise in the modelled
code paths). -/
inductive Ext where
  | ninf : Ext
  | pinf : Ext
  | val (q : Scal) : Ext
deriving DecidableEq, Repr

/-- `std::min` on doubles restricted to the no-NaN case. -/
def Ext.min : Ext → Ext → Ext
  | .ninf, _ => .ninf
  | _, .ninf => .ninf
  | .pinf, b => b
  | a, .pinf => a
  | .val a, .val b => .val (Scal.min a b)

/-- `std::max` on doubles restricted to the no-NaN case. -/
def Ext.max : Ext → Ext → Ext
  | .pinf, _ => .pinf
  | _, .pinf => .pinf
  | .ninf, b => b
  | a, .ninf => a
  | .val a, .val b => .val (Scal.max a b)

/-- `struct Rect { Scalar x0, y0, x1, y1; }` from Types.hpp. -/
structure Rect where
  x0 : Ext
  y0 : Ext
  x1 : Ext
  y1 : Ext
deriving DecidableEq, Repr

/-- The externally supplied layout constants and style-table size
(globals from Styles.hpp / Styles.cpp). -/
structure Styles where
  tree_level_sep : Scal
  tree_subtree_sep : Scal
  tree_sibling_sep : Scal
  tree_node_radius : Scal
  node_style_table_size : Nat
deriving DecidableEq, Repr

/-- The generated values in Styles.cpp: seps 4/6/6, radius 20, 21 node
styles. -/
def defaultStyles : Styles :=
  { tree_level_sep := 4
    tree_subtree_sep := 6
    tree_sibling_sep := 6
    tree_node_radius := 20
    node_style_table_size := 21 }

/-- The C++ exception kinds thrown by the tree operations, plus
`undefinedBehavior` for the places where the C++ would dereference an
invalid pointer or read an uninitialised field. -/
inductive TreeErr where
  | invalid_argument : TreeErr
  | out_of_range : TreeErr
  | logic_error : TreeErr
  | undefinedBehavior : TreeErr
deriving DecidableEq, Repr

/-- One `Node` of the tree (Tree.hpp/Tree.cpp). `parent_` is
`none` = nullptr, `some none` = the Tree object, `some (some s)` = node
`s`. `childpos_` is recovered as the index of `s_` in the parent's
children list. The layout scalars are uninitialised in the C++
constructor; they are modelled as 0. -/
structure Node where
  parent_ : Option (Option Nat)
  children_ : List Nat
  s_ : Nat
  d_ : Nat
  cat_ : Nat
  minfo_ : List Char
  ginfo_ : List Char
  xpre_ : Scal
  xshft_ : Scal
  xshftacc_ : Scal
  x_ : Scal
  y_ : Scal
  stale_ : Bool
deriving DecidableEq, Repr

/-- `Node::Node(size_t seqnum)`: null parent, depth 0, category 0; the
layout scalars and the `NodeBase` stale flag are left uninitialised by the
C++ constructor and modelled as 0 / false. -/
def Node.new (seqnum : Nat) : Node :=
  { parent_ := none
    children_ := []
    s_ := seqnum
    d_ := 0
    cat_ := 0
    minfo_ := []
    ginfo_ := []
    xpre_ := 0
    xshft_ := 0
    xshftacc_ := 0
    x_ := 0
    y_ := 0
    stale_ := false }

/-- `void Node::set_info(...)` — replace both text fields. -/
def Node.set_info (n : Node) (main general : List Char) : Node :=
  { n with minfo_ := main, ginfo_ := general }

/-- `void Node::add_info(...)` — append to both text fields. -/
def Node.add_info (n : Node) (main general : List Char) : Node :=
  { n with minfo_ := n.minfo_ ++ main, ginfo_ := n.ginfo_ ++ general }

/-- Wrapping `size_t` subtraction `a - b` (the C++ computes
`minfo_.size() - main.size()` in `size_t` arithmetic). -/
def szSub (a b : Nat) : Nat :=
  (a + (2 ^ 64 - b % 2 ^ 64)) % 2 ^ 64

/-- `void Node::strip_info(...)` —
`minfo_ = minfo_.substr(0, minfo_.size() - main.size())` (and likewise for
`ginfo_`); `substr` clamps the count to the string size, which
`List.take` also does. -/
def Node.strip_info (n : Node) (main general : List Char) : Node :=
  { n with
    minfo_ := n.minfo_.take (szSub n.minfo_.length main.length)
    ginfo_ := n.ginfo_.take (szSub n.ginfo_.length general.length) }

/-- The `Tree` object (Tree.hpp/Tree.cpp). It is itself a `NodeBase`, so
it carries a top-level children list `children_` and its own `NodeBase`
stale flag `base_stale_` (set by `mark_stale`, cleared by
`local_layout`); the member `stale_` initialised in `Tree::Tree()` is the
separate `Tree` flag checked by `update_layout`. -/
structure Tree where
  children_ : List Nat
  base_stale_ : Bool
  index_ : List (Option Node)
  lb_ : Ext
  ub_ : Ext
  nvert_ : Nat
  stale_ : Bool
  bbox_ : Rect
deriving DecidableEq, Repr

/-- `Tree::Tree()`: empty, bounds `-inf`/`+inf`, zero nodes, stale. The
`bbox_` member is default-initialised (indeterminate in C++); modelled as
zeros. The value-initialised `NodeBase` base gives `base_stale_ = false`. -/
def Tree.init : Tree :=
  { children_ := []
    base_stale_ := false
    index_ := []
    lb_ := .ninf
    ub_ := .pinf
    nvert_ := 0
    stale_ := true
    bbox_ := ⟨.val 0, .val 0, .val 0, .val 0⟩ }

/-- `index_[s]` read as a nullable pointer: out-of-range reads and reset
entries both give `none`. -/
def Tree.node? (t : Tree) (s : Nat) : Option Node :=
  t.index_.getD s none

/-- Overwrite `index_[s]` (no-op when out of range; the callers resize
first, as the C++ does). -/
def Tree.setNode (t : Tree) (s : Nat) (v : Option Node) : Tree :=
  { t with index_ := t.index_.set s v }

/-- Update the node record stored at `s`, if any. -/
def Tree.modifyNode (t : Tree) (s : Nat) (f : Node → Node) : Tree :=
  match t.node? s with
  | some nd => t.setNode s (some (f nd))
  | none => t

/-- The children list of a `NodeBase` (`none` = the Tree object). -/
def Tree.childrenOf (t : Tree) (p : Option Nat) : List Nat :=
  match p with
  | none => t.children_
  | some s => ((t.node? s).map (·.children_)).getD []

/-- Replace the children list of a `NodeBase`. -/
def Tree.setChildrenOf (t : Tree) (p : Option Nat) (l : List Nat) : Tree :=
  match p with
  | none => { t with children_ := l }
  | some s => t.modifyNode s (fun nd => { nd with children_ := l })

/-- The `NodeBase::stale_` flag of a `NodeBase` reference. -/
def Tree.baseStale (t : Tree) (p : Option Nat) : Bool :=
  match p with
  | none => t.base_stale_
  | some s => ((t.node? s).map (·.stale_)).getD false

/-- Set the `NodeBase::stale_` flag of a `NodeBase` reference. -/
def Tree.setBaseStale (t : Tree) (p : Option Nat) (b : Bool) : Tree :=
  match p with
  | none => { t with base_stale_ := b }
  | some s => t.modifyNode s (fun nd => { nd with stale_ := b })

/-- `node->parent_` of node `s` (`none` when the node does not exist). -/
def Tree.parentOf (t : Tree) (s : Nat) : Option (Option Nat) :=
  ((t.node? s).map (·.parent_)).getD none

/-- Field readers with the C++ "garbage on invalid pointer" collapsed to
defaults (the modelled executions never hit the defaults). -/
def Tree.depthOf (t : Tree) (s : Nat) : Nat :=
  ((t.node? s).map (·.d_)).getD 0

def Tree.xpreOf (t : Tree) (s : Nat) : Scal :=
  ((t.node? s).map (·.xpre_)).getD 0

def Tree.xshftOf (t : Tree) (s : Nat) : Scal :=
  ((t.node? s).map (·.xshft_)).getD 0

def Tree.xshftaccOf (t : Tree) (s : Nat) : Scal :=
  ((t.node? s).map (·.xshftacc_)).getD 0

def Tree.xOf (t : Tree) (s : Nat) : Scal :=
  ((t.node? s).map (·.x_)).getD 0

def Tree.yOf (t : Tree) (s : Nat) : Scal :=
  ((t.node? s).map (·.y_)).getD 0

/-- `std::next(childpos_)` within the parent's children list. -/
def Tree.nextSibling (t : Tree) (s : Nat) : Option Nat :=
  match t.parentOf s with
  | some p =>
    let cs := t.childrenOf p
    cs.get? (cs.indexOf s + 1)
  | none => none

/-- `std::prev(childpos_)` within the parent's children list, when
`childpos_` is not `begin()`. -/
def Tree.prevSibling (t : Tree) (s : Nat) : Option Nat :=
  match t.parentOf s with
  | some p =>
    let cs := t.childrenOf p
    let i := cs.indexOf s
    if i = 0 then none else cs.get? (i - 1)
  | none => none

/-- `void NodeBase::mark_stale()` started at NodeBase `start`
(`none` = the Tree object): mark it stale, then walk parent links, marking
each ancestor, stopping at the Tree object, at a null parent, or at an
already-stale ancestor. Fuel bounds the walk (ancestor chains are finite
in every reachable state). -/
def Tree.markStale : Nat → Tree → Option Nat → Tree
  | 0, t, _ => t
  | _ + 1, t, none => { t with base_stale_ := true }
  | fuel + 1, t, some s =>
    match t.node? s with
    | none => t
    | some nd =>
      let t := t.setNode s (some { nd with stale_ := true })
      match nd.parent_ with
      | none => t
      | some p => if t.baseStale p then t else Tree.markStale fuel t p

/-- `void Node::set_parent(NodeBase* parent)` acting on the record `nd`
of node `self` (the C++ mutates the heap node in place; the callers of
`set_parent` re-insert or drop the returned record). `parent` is
`none` = nullptr, `some none` = the Tree object, `some (some p)` = node
`p`. Throws `logic_error` (tree untouched) when the node has children. -/
def Tree.set_parent (t : Tree) (self : Nat) (nd : Node) (parent : Option (Option Nat)) :
    Except (TreeErr × Tree) (Node × Tree) :=
  if nd.children_ ≠ [] then
    .error (.logic_error, t)
  else
    -- Remove from previous parent
    let t :=
      match nd.parent_ with
      | none => t
      | some oldp =>
        let t := t.setChildrenOf oldp ((t.childrenOf oldp).erase self)
        t.markStale (t.index_.length + 1) oldp
    -- Append to children of new parent
    match parent with
    | none => .ok ({ nd with parent_ := none }, t)
    | some p =>
      let t := t.setChildrenOf p (t.childrenOf p ++ [self])
      let d :=
        match p with
        | some ps => t.depthOf ps + 1
        | none => 0
      -- mark_stale() starting at the node itself: the node record is
      -- marked directly, then the walk continues from the new parent.
      let nd := { nd with parent_ := some p, d_ := d, stale_ := true }
      let t := if t.baseStale p then t else t.markStale (t.index_.length + 1) p
      .ok (nd, t)

/-- `void Tree::add_node(size_t seqnum, size_t parent_seqnum, size_t
category)` (Tree.cpp). -/
def Tree.add_node (st : Styles) (t : Tree) (seqnum parent_seqnum category : Nat) :
    Except (TreeErr × Tree) Tree :=
  if (t.node? seqnum).isSome then
    .error (.invalid_argument, t)
  else if parent_seqnum > 0 ∧ (t.node? parent_seqnum).isNone then
    .error (.invalid_argument, t)
  else if category ≥ st.node_style_table_size then
    .error (.invalid_argument, t)
  else
    match t.set_parent seqnum (Node.new seqnum)
        (if parent_seqnum ≠ 0 then some (some parent_seqnum) else some none) with
    | .error e => .error e
    | .ok (nd, t) =>
      -- Enter node into sequence index (resize if needed)
      let idx :=
        if t.index_.length ≤ seqnum then
          t.index_ ++ List.replicate (seqnum + 1 - t.index_.length) none
        else t.index_
      let t := { t with index_ := idx.set seqnum (some nd) }
      -- Set node category
      let t := t.modifyNode seqnum (fun nd => { nd with cat_ := category })
      .ok { t with nvert_ := t.nvert_ + 1, stale_ := true }

/-- `void Tree::remove_node(size_t seqnum)` (Tree.cpp): throws
`out_of_range` on an unknown id; `set_parent(nullptr)` throws
`logic_error` (before any mutation) when the node still has children. -/
def Tree.remove_node (t : Tree) (seqnum : Nat) : Except (TreeErr × Tree) Tree :=
  match t.node? seqnum with
  | none => .error (.out_of_range, t)
  | some nd =>
    match t.set_parent seqnum nd none with
    | .error e => .error e
    | .ok (_, t) =>
      let t := t.setNode seqnum none
      .ok { t with nvert_ := t.nvert_ - 1, stale_ := true }

/-- `void Tree::set_category(size_t seqnum, size_t category)` (Tree.cpp):
validates the category code, then the id, then updates the category. -/
def Tree.set_category (st : Styles) (t : Tree) (seqnum category : Nat) :
    Except (TreeErr × Tree) Tree :=
  if category ≥ st.node_style_table_size then
    .error (.out_of_range, t)
  else
    match t.node? seqnum with
    | none => .error (.out_of_range, t)
    | some nd => .ok (t.setNode seqnum (some { nd with cat_ := category }))

/-- `void Tree::set_lower_bound(double)` — unconditional. -/
def Tree.set_lower_bound (t : Tree) (bound : Ext) : Tree :=
  { t with lb_ := bound }

/-- `void Tree::set_upper_bound(double)` — unconditional. -/
def Tree.set_upper_bound (t : Tree) (bound : Ext) : Tree :=
  { t with ub_ := bound }

/-- `enum class BoundType` (Event.hpp). -/
inductive BoundType where
  | Lower : BoundType
  | Upper : BoundType
deriving DecidableEq, Repr

/-- The closed set of event kinds (Event.hpp plus the two `VbcReader`
sentinel events). The `old_*` fields are the values an event captures
privately during `apply` to support `revert`; they are uninitialised
before the first `apply`, modelled as `Option` (`none` = uninitialised). -/
inductive EventData where
  | addNode (node_seq parent_seq category : Nat) : EventData
  | setCategory (node_seq new_category : Nat) (old_category : Option Nat) : EventData
  | setInfo (node_seq : Nat) (main_info general_info : List Char)
      (old_main_info old_general_info : Option (List Char)) : EventData
  | appendInfo (node_seq : Nat) (main_info general_info : List Char) : EventData
  | setBound (which : BoundType) (new_bound : Scal) (old_bound : Option Ext) : EventData
  | eos : EventData
  | ioError (what : List Char) : EventData
deriving DecidableEq, Repr

/-- `class Event` base data: sequence number and timestamp. -/
structure Event where
  seq_num : Nat
  time : Scal
  data : EventData
deriving DecidableEq, Repr

/-- `EOSEvent()` / `IOErrorEvent(what)` both call
`Event(std::numeric_limits<size_t>::max(), -1.0)`. -/
def EOSEvent : Event :=
  { seq_num := 2 ^ 64 - 1, time := -1, data := .eos }

def IOErrorEvent (what : List Char) : Event :=
  { seq_num := 2 ^ 64 - 1, time := -1, data := .ioError what }

/-- `virtual void apply(TreePtr tree)` dispatched over the event kinds
(Event.cpp, VbcReader.cpp). Returns the updated event (with its captured
old values) together with the updated tree; errors carry the tree at the
throw point. `tree->node(seq)` is an unchecked access in C++; a missing
node is modelled as `undefinedBehavior`. -/
def Event.apply (st : Styles) (e : Event) (t : Tree) :
    Except (TreeErr × Tree) (Event × Tree) :=
  match e.data with
  | .addNode node_seq parent_seq category =>
    (t.add_node st node_seq parent_seq category).map (fun t' => (e, t'))
  | .setCategory node_seq new_category _ =>
    match t.node? node_seq with
    | none => .error (.undefinedBehavior, t)
    | some nd =>
      -- old_category = tree->node(node_seq)->category();
      (t.set_category st node_seq new_category).map
        (fun t' => ({ e with data := .setCategory node_seq new_category (some nd.cat_) }, t'))
  | .setInfo node_seq main_info general_info _ _ =>
    match t.node? node_seq with
    | none => .error (.undefinedBehavior, t)
    | some nd =>
      .ok ({ e with data := .setInfo node_seq main_info general_info
                      (some nd.minfo_) (some nd.ginfo_) },
           t.setNode node_seq (some (nd.set_info main_info general_info)))
  | .appendInfo node_seq main_info general_info =>
    match t.node? node_seq with
    | none => .error (.undefinedBehavior, t)
    | some nd =>
      .ok (e, t.setNode node_seq (some (nd.add_info main_info general_info)))
  | .setBound which new_bound _ =>
    match which with
    | .Lower =>
      .ok ({ e with data := .setBound which new_bound (some t.lb_) },
           t.set_lower_bound (.val new_bound))
    | .Upper =>
      .ok ({ e with data := .setBound which new_bound (some t.ub_) },
           t.set_upper_bound (.val new_bound))
  | .eos => .ok (e, t)
  | .ioError _ => .ok (e, t)

/-- `virtual void revert(TreePtr tree)` dispatched over the event kinds.
Reading a captured value that was never set is uninitialised-memory UB in
the C++, modelled as `undefinedBehavior`. -/
def Event.revert (st : Styles) (e : Event) (t : Tree) :
    Except (TreeErr × Tree) Tree :=
  match e.data with
  | .addNode node_seq _ _ => t.remove_node node_seq
  | .setCategory node_seq _ old_category =>
    match old_category with
    | none => .error (.undefinedBehavior, t)
    | some oldc => t.set_category st node_seq oldc
  | .setInfo node_seq _ _ old_main_info old_general_info =>
    match old_main_info, old_general_info with
    | some om, some og =>
      match t.node? node_seq with
      | none => .error (.undefinedBehavior, t)
      | some nd => .ok (t.setNode node_seq (some (nd.set_info om og)))
    | _, _ => .error (.undefinedBehavior, t)
  | .appendInfo node_seq main_info general_info =>
    match t.node? node_seq with
    | none => .error (.undefinedBehavior, t)
    | some nd => .ok (t.setNode node_seq (some (nd.strip_info main_info general_info)))
  | .setBound which _ old_bound =>
    match old_bound with
    | none => .error (.undefinedBehavior, t)
    | some ob =>
      match which with
      | .Lower => .ok (t.set_lower_bound ob)
      | .Upper => .ok (t.set_upper_bound ob)
  | .eos => .ok t
  | .ioError _ => .ok t

/-- True for the two sentinel kinds `EOSEvent` / `IOErrorEvent`. -/
def Event.isSentinel (e : Event) : Bool :=
  match e.data with
  | .eos => true
  | .ioError _ => true
  | _ => false

/-- The consumer-visible state of a `VbcReader` (VbcReader.hpp): the
internal tree, the forward queue `fwd_`, the reverse stack `rev_` (a
`std::forward_list`, head = top), the last-applied timestamp and the
`rewind_` construction flag. The background thread, mutex and condition
variable are not modelled; `advance`/`rewind` run under the lock, so they
see a consistent snapshot. -/
structure VbcReader where
  rewind_ : Bool
  tree_ : Tree
  fwd_ : List Event
  rev_ : List Event
  timestamp_ : Scal
deriving DecidableEq, Repr

/-- `bool VbcReader::advance()` (VbcReader.cpp lines 313-343): returns
false on an empty forward queue. An `IOErrorEvent` head is reported to
stderr and left in place; an `EOSEvent` head is likewise left in place;
any other head is applied, the timestamp is raised to the event time if
larger, the head is popped, and (when `rewind_`) pushed onto `rev_`.
Exceptions out of `apply` propagate, leaving the queues untouched. -/
def VbcReader.advance (st : Styles) (r : VbcReader) :
    Except (TreeErr × VbcReader) (Bool × VbcReader) :=
  match r.fwd_ with
  | [] => .ok (false, r)
  | current :: rest =>
    match current.data with
    | .ioError _ => .ok (true, r)
    | .eos => .ok (true, r)
    | _ =>
      match current.apply st r.tree_ with
      | .error (err, t') => .error (err, { r with tree_ := t' })
      | .ok (ev', t') =>
        let ts := if current.time > r.timestamp_ then current.time else r.timestamp_
        .ok (true, { r with
          tree_ := t'
          timestamp_ := ts
          fwd_ := rest
          rev_ := if r.rewind_ then ev' :: r.rev_ else r.rev_ })

/-- `bool VbcReader::rewind()` (VbcReader.cpp lines 346-360): returns
false on an empty reverse stack; otherwise reverts `rev_.front()` and
then executes
`timestamp_ = rev_.empty() ? rev_.front()->get_time() : 0.0;`.
Note that the code never pops `rev_`, so the emptiness test is always
false here and the timestamp is set to 0.0. -/
def VbcReader.rewind (st : Styles) (r : VbcReader) :
    Except (TreeErr × VbcReader) (Bool × VbcReader) :=
  match r.rev_ with
  | [] => .ok (false, r)
  | current :: _ =>
    match current.revert st r.tree_ with
    | .error (err, t') => .error (err, { r with tree_ := t' })
    | .ok t' =>
      let ts := if r.rev_.isEmpty then current.time else 0
      .ok (true, { r with tree_ := t', timestamp_ := ts })

/-- `double VbcReader::get_timestamp() const`. -/
def VbcReader.get_timestamp (r : VbcReader) : Scal :=
  r.timestamp_

/-- `bool VbcReader::has_next() const`. -/
def VbcReader.has_next (r : VbcReader) : Bool :=
  !r.fwd_.isEmpty

/-- `bool VbcReader::has_prev() const`. -/
def VbcReader.has_prev (r : VbcReader) : Bool :=
  !r.rev_.isEmpty

/-- One driver-side `advance()` call, keeping the reader state that the
call leaves behind also when an exception escapes. -/
def VbcReader.advanceStep (st : Styles) (r : VbcReader) : VbcReader :=
  match r.advance st with
  | .ok (_, r') => r'
  | .error (_, r') => r'

/-- `n` successive `advance()` calls. -/
def VbcReader.advanceIter (st : Styles) : Nat → VbcReader → VbcReader
  | 0, r => r
  | n + 1, r => VbcReader.advanceStep st (VbcReader.advanceIter st n r)

/-- `Renderer::PushStatus` (OpenGLRenderer.hpp). -/
inductive PushStatus where
  | Push_Success : PushStatus
  | Push_Block : PushStatus
  | Push_Flush : PushStatus
deriving DecidableEq, Repr

/-- `Renderer::PullStatus` (OpenGLRenderer.hpp). -/
inductive PullStatus where
  | Pull_Success : PullStatus
  | Pull_Block : PullStatus
  | Pull_Flush : PullStatus
deriving DecidableEq, Repr

/-- The shared state of `OpenGLRenderer::Data` relevant to the task
queue: the flush flag, the running memory total `task_queue_memory`, and
the FIFO `task_queue`. A queued `ProcessedTree` is abstracted to its
accounted memory footprint `ptree.memory` (the geometry buffers play no
role in the queue logic). -/
structure RendererData where
  flush : Bool
  task_queue_memory : Nat
  task_queue : List Nat
deriving DecidableEq, Repr

/-- `Data()` constructor: flush off, zero memory, empty queue. -/
def RendererData.init : RendererData :=
  { flush := false, task_queue_memory := 0, task_queue := [] }

/-- The soft memory cap `(1 << 29)` (512 MiB) from
`OpenGLRenderer::push_frame`. -/
def push_memory_cap : Nat := 2 ^ 29

/-- `Renderer::PushStatus OpenGLRenderer::push_frame(TreePtr tree, bool
block)` (OpenGLRenderer.cpp lines 289-384), restricted to the queue
logic: `mem` is the computed `ptree.memory` of the processed tree. The
model is sequential (no concurrent producer/consumer), so the
`push_block.wait` loop either exits immediately or never returns; the
latter is `none`. -/
def RendererData.push_frame (d : RendererData) (mem : Nat) (block : Bool) :
    Option (PushStatus × RendererData) :=
  -- first lock section: pre-reject
  if d.flush then some (.Push_Flush, d)
  else if !block ∧ d.task_queue_memory > push_memory_cap then some (.Push_Block, d)
  else
    -- layout + buffer processing happens here (no queue state change),
    -- then the second lock section:
    if d.flush then some (.Push_Flush, d)
    else if block ∧ d.task_queue_memory > push_memory_cap then
      none
    else if d.task_queue_memory > push_memory_cap then some (.Push_Block, d)
    else
      some (.Push_Success,
        { d with
          task_queue_memory := d.task_queue_memory + mem
          task_queue := d.task_queue ++ [mem] })

/-- `Renderer::PullStatus OpenGLRenderer::pull_frame(void*, size_t, bool
block)` (OpenGLRenderer.cpp lines 387-419), restricted to the queue
logic (the buffer-size check and the GL drawing do not touch the queue).
As in `push_frame`, a wait that would suspend forever in the sequential
model is `none`. -/
def RendererData.pull_frame (d : RendererData) (block : Bool) :
    Option (PullStatus × RendererData) :=
  if d.flush ∧ d.task_queue.isEmpty then some (.Pull_Flush, d)
  else if block ∧ ¬d.flush ∧ d.task_queue.isEmpty then none
  else
    match d.task_queue with
    | [] => some (if d.flush then .Pull_Flush else .Pull_Block, d)
    | m :: rest =>
      some (.Pull_Success,
        { d with task_queue_memory := d.task_queue_memory - m, task_queue := rest })

/-- `void OpenGLRenderer::flush(bool flush)` (OpenGLRenderer.cpp lines
465-475): sets the flag and wakes all waiters; the queue and the memory
counter are untouched. -/
def RendererData.flushSet (d : RendererData) (b : Bool) : RendererData :=
  { d with flush := b }

/-! ### The incremental layout algorithm (Tree.cpp lines 31-286)

`NodeBase::local_layout` is an explicit work-list algorithm; every C++
loop is translated with a fuel parameter and `none` on exhaustion. -/

/-- Write the preliminary x coordinate of node `s`. -/
def Tree.setXpre (t : Tree) (s : Nat) (q : Scal) : Tree :=
  t.modifyNode s (fun nd => { nd with xpre_ := q })

/-- Write the x shift of node `s`. -/
def Tree.setXshft (t : Tree) (s : Nat) (q : Scal) : Tree :=
  t.modifyNode s (fun nd => { nd with xshft_ := q })

/-- One stack entry of `local_layout`: the `NodeBase*`, the children
iterator (as an index into its children list), and the `skippable`
flag. -/
structure LLFrame where
  parent : Option Nat
  it : Nat
  skippable : Bool
deriving DecidableEq, Repr

/-- `while(it != parent->children_.end() && !it->get()->stale_) ++it;` —
the number of leading non-stale children to skip. -/
def Tree.skipCount (t : Tree) : List Nat → Nat
  | [] => 0
  | c :: rest => if t.baseStale (some c) then 0 else 1 + t.skipCount rest

/-- `while(sibling->get()->children_.empty() && sibling !=
parent->children_.begin()) --sibling;` — scan left from index `k` for a
sibling with children. -/
def Tree.findSiblingWithChildren (t : Tree) (cs : List Nat) : Nat → Nat
  | 0 => 0
  | k + 1 =>
    if t.childrenOf (some (cs.getD (k + 1) 0)) = [] then
      t.findSiblingWithChildren cs k
    else k + 1

/-- The inner right-contour climb (Tree.cpp lines 149-152):
`do { right = right->parent_; racc -= right->xshft_; } while(right != v
&& right has no next sibling);`. -/
def Tree.rightClimb : Nat → Tree → (v : Nat) → (right : Nat) → (racc : Scal) →
    Option (Nat × Scal)
  | 0, _, _, _, _ => none
  | fuel + 1, t, v, right, racc =>
    let r' := match t.parentOf right with
      | some (some s) => s
      | _ => 0
    let racc' := racc - t.xshftOf r'
    if r' = v then some (r', racc')
    else if (t.nextSibling r').isSome then some (r', racc')
    else Tree.rightClimb fuel t v r' racc'

/-- Advance the right contour node by one level (Tree.cpp lines 138-161):
the `do { ... } while(right->depth() < target_depth)` loop. The result is
the new `(right, racc)`; reaching the subtree root `v` breaks out with
`right = v`. -/
def Tree.rightContourAdvance : Nat → Tree → (v : Nat) → (target : Nat) →
    (right : Nat) → (racc : Scal) → Option (Nat × Scal)
  | 0, _, _, _, _, _ => none
  | fuel + 1, t, v, target, right, racc =>
    let step : Option (Nat × Scal × Bool) :=
      if t.childrenOf (some right) ≠ [] then
        some ((t.childrenOf (some right)).headD 0, racc + t.xshftOf right, false)
      else
        match t.nextSibling right with
        | some ns => some (ns, racc, false)
        | none =>
          match t.rightClimb fuel v right racc with
          | none => none
          | some (r', racc') =>
            if r' = v then some (v, racc', true)
            else some ((t.nextSibling r').getD 0, racc', false)
    match step with
    | none => none
    | some (r', racc', true) => some (r', racc')
    | some (r', racc', false) =>
      if t.depthOf r' < target then Tree.rightContourAdvance fuel t v target r' racc'
      else some (r', racc')

/-- The inner left-contour climb (Tree.cpp lines 178-181):
`do { left = left->parent_; lacc -= left->xshft_; } while(left != sibNode
&& left is its parent's first child);`. -/
def Tree.leftClimb : Nat → Tree → (sibNode : Nat) → (left : Nat) → (lacc : Scal) →
    Option (Nat × Scal)
  | 0, _, _, _, _ => none
  | fuel + 1, t, sibNode, left, lacc =>
    let l' := match t.parentOf left with
      | some (some s) => s
      | _ => 0
    let lacc' := lacc - t.xshftOf l'
    if l' = sibNode then some (l', lacc')
    else if (t.prevSibling l').isSome then some (l', lacc')
    else Tree.leftClimb fuel t sibNode l' lacc'

/-- `do { --sibling; } while(sibling->get()->children_.empty() && sibling
!= parent->children_.begin());` — decrement at least once from index
`j`. -/
def Tree.siblingRescan (t : Tree) (cs : List Nat) : Nat → Nat
  | 0 => 0
  | j + 1 =>
    if t.childrenOf (some (cs.getD j 0)) = [] ∧ j ≠ 0 then
      t.siblingRescan cs j
    else j

/-- Advance the left contour node by one level (Tree.cpp lines 169-206):
the `do { ... } while(left->depth() < target_depth)` loop. Returns
`(some left, lacc, sibling-index)` or `(none, ..)` when `left` became
nullptr (which ends the enclosing contour loop). -/
def Tree.leftContourAdvance : Nat → Tree → (cs : List Nat) → (target : Nat) →
    (j : Nat) → (left : Nat) → (lacc : Scal) → Option (Option Nat × Scal × Nat)
  | 0, _, _, _, _, _, _ => none
  | fuel + 1, t, cs, target, j, left, lacc =>
    let step : Option (Option Nat × Scal × Nat) :=
      if t.childrenOf (some left) ≠ [] then
        some (some ((t.childrenOf (some left)).getLastD 0), lacc + t.xshftOf left, j)
      else
        match t.prevSibling left with
        | some pl => some (some pl, lacc, j)
        | none =>
          match t.leftClimb fuel (cs.getD j 0) left lacc with
          | none => none
          | some (l', lacc') =>
            if l' = cs.getD j 0 then
              -- left = nullptr
              if j = 0 then some (none, lacc', j)
              else
                let j' := t.siblingRescan cs j
                if t.childrenOf (some (cs.getD j' 0)) = [] then some (none, lacc', j')
                else
                  let sn := cs.getD j' 0
                  some (some ((t.childrenOf (some sn)).getLastD 0), t.xshftOf sn, j')
            else
              some (some ((t.prevSibling l').getD 0), lacc', j)
    match step with
    | none => none
    | some (none, lacc', j') => some (none, lacc', j')
    | some (some l', lacc', j') =>
      if t.depthOf l' < target then Tree.leftContourAdvance fuel t cs target j' l' lacc'
      else some (some l', lacc', j')

/-- The outer contour loop (Tree.cpp lines 124-207):
`do { adjust; advance right; advance left; } while(left != nullptr)`,
acting on the node `v` whose shift is being fixed. `cs` is the children
list of `v`'s parent, `j` the current sibling index. -/
def Tree.contourLoop (st : Styles) : Nat → Tree → (v : Nat) → (cs : List Nat) →
    (j : Nat) → (right : Nat) → (racc : Scal) → (left : Nat) → (lacc : Scal) → Option Tree
  | 0, _, _, _, _, _, _, _, _ => none
  | fuel + 1, t, v, cs, j, right, racc, left, lacc =>
    let actual_subtree_sep := st.tree_subtree_sep + 2 * st.tree_node_radius
    let adj := t.xpreOf left + t.xshftOf left + lacc + actual_subtree_sep
      - (t.xpreOf right + t.xshftOf right + racc)
    let t' := if adj > 0 then t.setXshft v (t.xshftOf v + adj) else t
    let racc := if adj > 0 then racc + adj else racc
    let target := t'.depthOf right + 1
    match t'.rightContourAdvance fuel v target right racc with
    | none => none
    | some (r', racc') =>
      if r' = v then some t'
      else
        match t'.leftContourAdvance fuel cs target j left lacc with
        | none => none
        | some (none, _, _) => some t'
        | some (some l', lacc', j') =>
          Tree.contourLoop st fuel t' v cs j' r' racc' l' lacc'

/-- Process one non-stale child `c` at position `i` in the children list
of `p`: set its preliminary x from its own children, then its shift from
its left sibling and the contour walk (the body of the inner `while` of
`local_layout`, Tree.cpp lines 82-210). -/
def Tree.processChild (st : Styles) (fuel : Nat) (t : Tree) (p : Option Nat)
    (i : Nat) (c : Nat) : Option Tree :=
  let actual_sibling_sep := st.tree_sibling_sep + 2 * st.tree_node_radius
  -- Set child's preliminary X coordinate based on grandchildren
  let t :=
    match t.childrenOf (some c) with
    | [] => t.setXpre c 0
    | f :: rest =>
      let b := (f :: rest).getLastD 0
      t.setXpre c ((t.xpreOf f + t.xshftOf f + t.xpreOf b + t.xshftOf b).half)
  -- Initialize node shift based on left sibling
  if i = 0 then some (t.setXshft c 0)
  else
    let cs := t.childrenOf p
    let sib := cs.getD (i - 1) 0
    let t := t.setXshft c (t.xpreOf sib + t.xshftOf sib + actual_sibling_sep - t.xpreOf c)
    -- Skip further adjustments if current child is a leaf
    if t.childrenOf (some c) = [] then some t
    else
      let right := (t.childrenOf (some c)).headD 0
      let racc := t.xshftOf c
      -- Identify first left sibling that has children
      let j := t.findSiblingWithChildren cs (i - 1)
      if t.childrenOf (some (cs.getD j 0)) = [] then some t
      else
        let sn := cs.getD j 0
        let left := (t.childrenOf (some sn)).getLastD 0
        let lacc := t.xshftOf sn
        t.contourLoop st fuel c cs j right racc left lacc

/-- The work-list loop of `NodeBase::local_layout` (Tree.cpp lines
53-221). Each step handles one child (or one skip / one push / one pop),
exactly as the C++ stack machine does. -/
def Tree.localLayoutGo (st : Styles) : Nat → Tree → List LLFrame → Option Tree
  | 0, _, _ => none
  | _ + 1, t, [] => some t
  | fuel + 1, t, fr :: frames =>
    let cs := t.childrenOf fr.parent
    -- Skip nodes until we reach a stale child
    let i := if fr.skippable then fr.it + t.skipCount (cs.drop fr.it) else fr.it
    if i < cs.length then
      let c := cs.getD i 0
      if t.baseStale (some c) then
        -- If child is stale, update subtree first
        Tree.localLayoutGo st fuel t
          (⟨some c, 0, true⟩ :: ⟨fr.parent, i, false⟩ :: frames)
      else
        match t.processChild st fuel fr.parent i c with
        | none => none
        | some t' => Tree.localLayoutGo st fuel t' (⟨fr.parent, i + 1, false⟩ :: frames)
    else
      -- it == end: local layout of all descendants finished
      Tree.localLayoutGo st fuel (t.setBaseStale fr.parent false) frames

/-- `void NodeBase::local_layout()` invoked on the `Tree` object (the
only call site, from `Tree::update_layout`): no-op when the `NodeBase`
stale flag is clear. -/
def Tree.local_layout (st : Styles) (fuel : Nat) (t : Tree) : Option Tree :=
  if !t.base_stale_ then some t
  else t.localLayoutGo st fuel [⟨none, 0, true⟩]

/-- The climb step of the pre-order walk in `aggregate_layout`
(Tree.cpp lines 276-283). -/
def Tree.aggClimb : Nat → Tree → (child : Nat) → (desc : Nat) → Option Nat
  | 0, _, _, _ => none
  | fuel + 1, t, child, desc =>
    let d' := match t.parentOf desc with
      | some (some s) => s
      | _ => 0
    if d' = child then some child
    else
      match t.nextSibling d' with
      | some ns => some ns
      | none => Tree.aggClimb fuel t child d'

/-- The coordinate assignment of the subtree traversal of
`aggregate_layout` (Tree.cpp lines 255-261): cumulative shift, absolute x,
and y from the parent's row. -/
def Tree.aggAssign (st : Styles) (t : Tree) (desc : Nat) : Tree :=
  let actual_level_sep := st.tree_level_sep + 2 * st.tree_node_radius
  let parent := match t.parentOf desc with
    | some (some s) => s
    | _ => 0
  let pacc := t.xshftaccOf parent
  let py := t.yOf parent
  t.modifyNode desc (fun nd =>
    let acc := nd.xshft_ + pacc
    { nd with xshftacc_ := acc, x_ := nd.xpre_ + acc, y_ := py + actual_level_sep })

/-- The coordinate assignment for a top-level child (Tree.cpp lines
236-239): copy the local shift, no parent row. -/
def Tree.aggAssignTop (t : Tree) (c : Nat) : Tree :=
  t.modifyNode c (fun nd =>
    { nd with xshftacc_ := nd.xshft_, x_ := nd.xpre_ + nd.xshft_, y_ := 0 })

/-- "Advance to next child in pre-order" (Tree.cpp lines 268-283): first
child, else next sibling, else climb until a next sibling or `child`. -/
def Tree.aggNext (fuel : Nat) (t : Tree) (child : Nat) (desc : Nat) : Option Nat :=
  if t.childrenOf (some desc) ≠ [] then some ((t.childrenOf (some desc)).headD 0)
  else
    match t.nextSibling desc with
    | some ns => some ns
    | none => t.aggClimb fuel child desc

/-- The subtree traversal of `aggregate_layout` (Tree.cpp lines 250-284):
`while(desc != child)` assigning cumulative shifts, coordinates and the
bounding box. -/
def Tree.aggWalk (st : Styles) : Nat → Tree → (child : Nat) → (desc : Nat) →
    Rect → Option (Tree × Rect)
  | 0, _, _, _, _ => none
  | fuel + 1, t, child, desc, bbox =>
    if desc = child then some (t, bbox)
    else
      let t := Tree.aggAssign st t desc
      let bbox :=
        { bbox with
          x0 := Ext.min bbox.x0 (.val (t.xOf desc))
          x1 := Ext.max bbox.x1 (.val (t.xOf desc))
          y1 := Ext.max bbox.y1 (.val (t.yOf desc)) }
      match t.aggNext fuel child desc with
      | none => none
      | some desc' => Tree.aggWalk st fuel t child desc' bbox

/-- The per-top-level-child loop of `aggregate_layout` (Tree.cpp lines
235-285). -/
def Tree.aggChildren (st : Styles) (fuel : Nat) : Tree → List Nat → Rect →
    Option (Tree × Rect)
  | t, [], bbox => some (t, bbox)
  | t, c :: rest, bbox =>
    -- Initialize shift accumulation on first level by copying local shift
    let t := t.aggAssignTop c
    let bbox :=
      { bbox with
        x0 := Ext.min bbox.x0 (.val (t.xOf c))
        x1 := Ext.max bbox.x1 (.val (t.xOf c)) }
    if t.childrenOf (some c) = [] then t.aggChildren st fuel rest bbox
    else
      match t.aggWalk st fuel c ((t.childrenOf (some c)).headD 0) bbox with
      | none => none
      | some (t, bbox) => t.aggChildren st fuel rest bbox

/-- `void NodeBase::aggregate_layout(Rect& bbox)` invoked on the `Tree`
object (Tree.cpp lines 225-286): initialise `bbox` to
`(+inf, 0, -inf, 0)` and fill in positions over all top-level subtrees. -/
def Tree.aggregate_layout (st : Styles) (fuel : Nat) (t : Tree) :
    Option (Tree × Rect) :=
  t.aggChildren st fuel t.children_ ⟨.pinf, .val 0, .ninf, .val 0⟩

/-- The min/max join of one assigned position into the running bounding
rectangle, exactly as `aggregate_layout` performs it: a subtree node
`(x, some y)` joins `x` into `x0`/`x1` and `y` into `y1`; a top-level
child `(x, none)` joins only `x` (its row is `y = 0` and the loop does
not touch `y1` for it); `y0` is never touched. -/
def rectJoin (b : Rect) (p : Scal × Option Scal) : Rect :=
  { x0 := Ext.min b.x0 (.val p.1)
    y0 := b.y0
    x1 := Ext.max b.x1 (.val p.1)
    y1 := match p.2 with
      | none => b.y1
      | some y => Ext.max b.y1 (.val y) }

/-- Verification-side companion of `aggWalk` (not part of the C++): it
replays the identical traversal and records, in visit order, the
coordinates that `aggWalk` joins into the bounding rectangle. Used to
state that the cached rectangle is exactly the min/max envelope of the
assigned node positions. -/
def Tree.aggWalkPoints (st : Styles) : Nat → Tree → (child : Nat) → (desc : Nat) →
    Option (Tree × List (Scal × Option Scal))
  | 0, _, _, _ => none
  | fuel + 1, t, child, desc =>
    if desc = child then some (t, [])
    else
      let t := Tree.aggAssign st t desc
      match t.aggNext fuel child desc with
      | none => none
      | some desc' =>
        match Tree.aggWalkPoints st fuel t child desc' with
        | none => none
        | some (t2, ps) => some (t2, (t.xOf desc, some (t.yOf desc)) :: ps)

/-- Verification-side companion of `aggChildren` (not part of the C++):
replays the per-top-child loop and records the joined coordinates in the
order `aggChildren` joins them. -/
def Tree.aggChildrenPoints (st : Styles) (fuel : Nat) : Tree → List Nat →
    Option (Tree × List (Scal × Option Scal))
  | t, [] => some (t, [])
  | t, c :: rest =>
    let t := t.aggAssignTop c
    if t.childrenOf (some c) = [] then
      match Tree.aggChildrenPoints st fuel t rest with
      | none => none
      | some (t2, ps) => some (t2, (t.xOf c, none) :: ps)
    else
      match t.aggWalkPoints st fuel c ((t.childrenOf (some c)).headD 0) with
      | none => none
      | some (t1, ps1) =>
        match Tree.aggChildrenPoints st fuel t1 rest with
        | none => none
        | some (t2, ps2) => some (t2, (t.xOf c, none) :: (ps1 ++ ps2))

/-- Verification-side companion of `aggregate_layout`: the recorded
coordinates of the whole aggregate pass. -/
def Tree.aggregatePoints (st : Styles) (fuel : Nat) (t : Tree) :
    Option (Tree × List (Scal × Option Scal)) :=
  t.aggChildrenPoints st fuel t.children_

/-- `void Tree::update_layout()` (Tree.cpp lines 527-537): short-circuit
when not stale, else `local_layout(); aggregate_layout(bbox_); stale_ =
false;`. -/
def Tree.update_layout (st : Styles) (fuel : Nat) (t : Tree) : Option Tree :=
  if !t.stale_ then some t
  else
    match t.local_layout st fuel with
    | none => none
    | some t1 =>
      match t1.aggregate_layout st fuel with
      | none => none
      | some (t2, bbox) => some { t2 with bbox_ := bbox, stale_ := false }

/-! ### Concrete states used by the witnesses and counterexamples -/

/-- Unwrap a successful tree operation (used only to build concrete
example states; the success is checked by the theorems that use them). -/
def okTreeD (e : Except (TreeErr × Tree) Tree) : Tree :=
  match e with
  | .ok t => t
  | .error (_, t) => t

/-- A tree holding the single node 1 (top-level, category 0). -/
def exSingle : Tree :=
  okTreeD (Tree.init.add_node defaultStyles 1 0 0)

/-- `exSingle` after `update_layout`. -/
def exSingleLaidOut : Tree :=
  (exSingle.update_layout defaultStyles 100).getD Tree.init

/-- `exSingle` after the local pass only. -/
def exSingleLocal : Tree :=
  (exSingle.local_layout defaultStyles 100).getD Tree.init

/-- The aggregate pass applied to `exSingleLocal`. -/
def exSingleAgg : Tree × Rect :=
  (exSingleLocal.aggregate_layout defaultStyles 100).getD
    (Tree.init, ⟨.pinf, .val 0, .ninf, .val 0⟩)

/-- The recorded coordinates of the aggregate pass on `exSingleLocal`. -/
def exSinglePts : Tree × List (Scal × Option Scal) :=
  (exSingleLocal.aggregatePoints defaultStyles 100).getD (Tree.init, [])

/-- Node 1 with one child, node 2. -/
def exParentChild : Tree :=
  okTreeD (exSingle.add_node defaultStyles 2 1 0)

/-- The record of node 1 inside `exParentChild`. -/
def exParentChildNode1 : Node :=
  (exParentChild.node? 1).getD (Node.new 0)

/-- A rewindable reader whose reverse stack holds one applied
`SetBoundEvent` (old lower bound 2 captured, new bound 3, time 5). -/
def exRewindReader : VbcReader :=
  { rewind_ := true
    tree_ := Tree.init.set_lower_bound (.val 3)
    fwd_ := []
    rev_ := [{ seq_num := 0, time := 5, data := .setBound .Lower 3 (some (.val 2)) }]
    timestamp_ := 5 }

/-- A reader whose forward queue head is the `EOSEvent` sentinel. -/
def exEosReader : VbcReader :=
  { rewind_ := false
    tree_ := Tree.init
    fwd_ := [EOSEvent]
    rev_ := []
    timestamp_ := 0 }

/-- A reader whose forward queue holds two bound events with strictly
decreasing timestamps (5, then 3). -/
def exDecReader : VbcReader :=
  { rewind_ := false
    tree_ := Tree.init
    fwd_ := [{ seq_num := 0, time := 5, data := .setBound .Lower 1 none },
             { seq_num := 1, time := 3, data := .setBound .Lower 2 none }]
    rev_ := []
    timestamp_ := 0 }

/-- 60 MiB, the task size of the specification's render-queue example. -/
def mib60 : Nat := 60 * 2 ^ 20

/-- `n` successive non-blocking pushes of a 60 MiB task, each keeping the
state the call returns (a blocked push leaves the state unchanged). -/
def pushIter60 : Nat → RendererData → RendererData
  | 0, d => d
  | n + 1, d =>
    match (pushIter60 n d).push_frame mib60 false with
    | some (_, d') => d'
    | none => pushIter60 n d

/-- The queue state after nine successful 60 MiB pushes. -/
def exQueue9 : RendererData := pushIter60 9 RendererData.init

/-- `exQueue9` after one successful pull. -/
def exQueue9AfterPull : RendererData :=
  match exQueue9.pull_frame false with
  | some (_, d') => d'
  | none => exQueue9

/-! ## Theorems -/

/-- C1: evaluation at the failing input. On a rewindable reader whose
reverse stack holds exactly one applied event, `rewind()` returns true
and reverts the event (the lower bound goes back to 2), but it never
pops `rev_` — the stack still holds the event afterwards, a second
`rewind()` again returns true (the claim requires false), and the
timestamp is unconditionally reset to 0 by the inverted emptiness
test. -/
theorem rewind_does_not_pop :
    (VbcReader.rewind defaultStyles exRewindReader).map
        (fun p => (p.1, p.2.rev_, p.2.timestamp_, p.2.tree_.lb_)) =
      .ok (true, exRewindReader.rev_, 0, .val 2)
    ∧ ((VbcReader.rewind defaultStyles exRewindReader).bind
        (fun p => VbcReader.rewind defaultStyles p.2)).map (fun p => p.1) =
      .ok true := by
  decide

/-- C2 counterexample: a reader whose non-empty forward queue starts with
the `EOSEvent` sentinel. `advance()` returns true but removes nothing:
the state (queue included) is exactly unchanged, contradicting the claim
that the head element is removed/consumed. -/
theorem advance_keeps_sentinel_at_head :
    VbcReader.advance defaultStyles exEosReader = .ok (true, exEosReader)
    ∧ exEosReader.fwd_ ≠ [] := by
  decide

/-- C3 counterexample: starting from the empty queue with the 512 MiB cap
and flush off, after eight successful 60 MiB pushes the running total is
480 MiB, which does not exceed the cap, so the ninth non-blocking push
returns Success — not Block as the claim states. -/
theorem ninth_push_succeeds :
    (pushIter60 8 RendererData.init).task_queue_memory = 8 * mib60
    ∧ ((pushIter60 8 RendererData.init).push_frame mib60 false).map Prod.fst =
        some .Push_Success := by
  decide

/-- C3 amended: the first nine 60 MiB pushes succeed (the check is
`total > 1 << 29` against the pre-push total), the tenth returns Block
and is not enqueued, and after a single pull the same 60 MiB push
succeeds again. -/
theorem push_scenario_512MiB_cap :
    ((List.range 10).map fun k =>
        ((pushIter60 k RendererData.init).push_frame mib60 false).map Prod.fst) =
      List.replicate 9 (some .Push_Success) ++ [some .Push_Block]
    ∧ pushIter60 10 RendererData.init = exQueue9
    ∧ exQueue9.task_queue.length = 9
    ∧ (exQueue9.pull_frame false).map Prod.fst = some .Pull_Success
    ∧ (exQueue9AfterPull.push_frame mib60 false).map Prod.fst = some .Push_Success := by
  decide

/-- C4 counterexample: a tree with the single node 1. After
`update_layout()` the node sits at (0, 0) and the cached bounding
rectangle is the degenerate (0, 0, 0, 0): it is not expanded by the node
drawing radius (20 in Styles.cpp), which would give (-20, -20, 20, 20). -/
theorem bbox_not_expanded_by_radius :
    (exSingle.update_layout defaultStyles 100).map
        (fun t => (t.xOf 1, t.yOf 1, t.bbox_)) =
      some (0, 0, ⟨.val 0, .val 0, .val 0, .val 0⟩)
    ∧ (⟨.val 0, .val 0, .val 0, .val 0⟩ : Rect) ≠
        ⟨.val (-20), .val (-20), .val 20, .val 20⟩ := by
  decide

/-- C5 counterexample: on the empty tree, `add_node` with sequence number
0 (no parent, category 0) succeeds and creates node 0 — the claim that no
reachable state contains node 0 is false. -/
theorem add_node_zero_succeeds :
    (Tree.init.add_node defaultStyles 0 0 0).map
        (fun t => ((t.node? 0).isSome, t.nvert_)) = .ok (true, 1) := by
  decide

/-! ### Helper lemmas about the arena -/

theorem list_getD_none_of_le {α : Type} (l : List (Option α)) (s : Nat)
    (h : l.length ≤ s) : l.getD s none = none := by
  induction l generalizing s with
  | nil => simp [List.getD]
  | cons a tl ih =>
    cases s with
    | zero => simp at h
    | succ n => simpa [List.getD] using ih n (by simpa using h)

theorem list_getD_set_self {α : Type} (l : List (Option α)) (s : Nat)
    (v : Option α) (h : s < l.length) : (l.set s v).getD s none = v := by
  induction l generalizing s with
  | nil => simp at h
  | cons a tl ih =>
    cases s with
    | zero => simp [List.getD]
    | succ n => simpa [List.getD] using ih n (by simpa using h)

theorem node?_isSome_lt {t : Tree} {s : Nat} {nd : Node}
    (h : t.node? s = some nd) : s < t.index_.length := by
  by_contra hc
  rw [Tree.node?, list_getD_none_of_le _ _ (Nat.le_of_not_lt hc)] at h
  cases h

theorem node?_setNode_self {t : Tree} {s : Nat} (v : Option Node)
    (h : s < t.index_.length) : (t.setNode s v).node? s = v := by
  exact list_getD_set_self _ _ _ h

/-! ### C7: removing a node that still has children -/

/-- C7: `remove_node` on an assigned node that currently has at least one
child throws `logic_error` with the tree exactly as before the call (the
check is the first statement of `set_parent`, so node count, structure
and every staleness flag are untouched). -/
theorem remove_node_with_children_fails (t : Tree) (s : Nat) (nd : Node)
    (hnd : t.node? s = some nd) (hch : nd.children_ ≠ []) :
    t.remove_node s = .error (.logic_error, t) := by
  unfold Tree.remove_node Tree.set_parent
  rw [hnd]
  simp [hch]

/-- C7 witness: in the concrete two-node tree, removing node 1 (which has
child 2) fails with `logic_error` and returns the unchanged tree. -/
theorem remove_node_with_children_fails_witness :
    exParentChild.remove_node 1 = .error (.logic_error, exParentChild) :=
  remove_node_with_children_fails exParentChild 1 exParentChildNode1
    (by decide) (by decide)

/-! ### C9: update_layout is idempotent -/

/-- C9: if `update_layout()` returns a tree `t'`, then running
`update_layout()` again on `t'` returns `t'` unchanged — identical
positions and an identical cached bounding rectangle — because the first
call leaves `stale_ = false` and the second short-circuits. -/
theorem update_layout_idempotent (st : Styles) (fuel : Nat) (t t' : Tree)
    (h : t.update_layout st fuel = some t') :
    t'.update_layout st fuel = some t' := by
  unfold Tree.update_layout at h
  split at h
  · -- not stale: the call returned `t` unchanged
    cases h
    unfold Tree.update_layout
    simp_all
  · -- stale: the result carries `stale_ := false`, so the second call
    -- short-circuits
    split at h
    · exact absurd h (by simp)
    · split at h
      · exact absurd h (by simp)
      · cases h
        unfold Tree.update_layout
        simp

/-- C9 witness: the single-node tree, laid out once, is a fixed point of
`update_layout`. -/
theorem update_layout_idempotent_witness :
    exSingleLaidOut.update_layout defaultStyles 100 = some exSingleLaidOut :=
  update_layout_idempotent defaultStyles 100 exSingle exSingleLaidOut (by decide)

/-! ### C2 (amended): advance -/

/-- C2 amended: `advance()` returns false exactly on an empty forward
queue; a sentinel head (`EOSEvent` or `IOErrorEvent`) is observed
(IOError is reported) but left at the head of the queue with the whole
reader state unchanged; a regular head is applied, the timestamp is
raised to the event time if larger, the head is popped, and — when
rewinding is enabled — the applied event is pushed onto the reverse
stack. -/
theorem advance_amended (st : Styles) (r : VbcReader) :
    (r.fwd_ = [] → r.advance st = .ok (false, r))
    ∧ (∀ e rest, r.fwd_ = e :: rest → e.isSentinel = true →
        r.advance st = .ok (true, r))
    ∧ (∀ e rest ev' t', r.fwd_ = e :: rest → e.isSentinel = false →
        Event.apply st e r.tree_ = .ok (ev', t') →
        r.advance st = .ok (true,
          { r with
            tree_ := t'
            timestamp_ := if e.time > r.timestamp_ then e.time else r.timestamp_
            fwd_ := rest
            rev_ := if r.rewind_ then ev' :: r.rev_ else r.rev_ })) := by
  refine ⟨?_, ?_, ?_⟩
  · intro h
    unfold VbcReader.advance
    rw [h]
  · intro e rest h hs
    unfold VbcReader.advance
    rw [h]
    dsimp only
    unfold Event.isSentinel at hs
    rcases hd : e.data <;> rw [hd] at hs <;> simp at hs
  · intro e rest ev' t' h hs happ
    unfold VbcReader.advance
    rw [h]
    dsimp only
    unfold Event.isSentinel at hs
    rcases hd : e.data <;> rw [hd] at hs <;> simp at hs <;>
      (dsimp only; rw [happ])

/-- C2 witness: the amended statement applied to the reader whose queue
head is the `EOSEvent` sentinel. -/
theorem advance_amended_witness :
    VbcReader.advance defaultStyles exEosReader = .ok (true, exEosReader) :=
  (advance_amended defaultStyles exEosReader).2.1 EOSEvent [] (by decide) (by decide)

/-! ### C10: memory accounting of the render task queue -/

/-- C10: the running counter `task_queue_memory` always equals the sum of
the footprints of the queued tasks: a successful `push_frame` appends the
task and adds exactly its footprint, a successful `pull_frame` removes
the head and subtracts exactly its footprint, and a Block/Flush outcome —
like `flush()` itself — leaves both the queue and the counter
unchanged. -/
theorem task_queue_memory_accounting (d : RendererData) (mem : Nat) (bl : Bool)
    (hinv : d.task_queue_memory = d.task_queue.sum) :
    (∀ s d', d.push_frame mem bl = some (s, d') →
        d'.task_queue_memory = d'.task_queue.sum
        ∧ (s = .Push_Success →
            d'.task_queue = d.task_queue ++ [mem]
            ∧ d'.task_queue_memory = d.task_queue_memory + mem)
        ∧ (s ≠ .Push_Success → d' = d))
    ∧ (∀ s d', d.pull_frame bl = some (s, d') →
        d'.task_queue_memory = d'.task_queue.sum
        ∧ (s = .Pull_Success →
            d.task_queue ≠ []
            ∧ d'.task_queue = d.task_queue.tail
            ∧ d'.task_queue_memory = d.task_queue_memory - d.task_queue.headD 0)
        ∧ (s ≠ .Pull_Success → d' = d))
    ∧ (∀ b, (d.flushSet b).task_queue = d.task_queue
        ∧ (d.flushSet b).task_queue_memory = d.task_queue_memory) := by
  refine ⟨?_, ?_, fun b => ⟨rfl, rfl⟩⟩
  · intro s d' h
    unfold RendererData.push_frame at h
    repeat' split at h
    any_goals exact Option.noConfusion h
    all_goals simp only [Option.some.injEq, Prod.mk.injEq] at h
    all_goals obtain ⟨hs, hd'⟩ := h
    all_goals subst hs
    all_goals subst hd'
    all_goals refine ⟨?_, ?_, ?_⟩
    all_goals
      first
        | exact hinv
        | (intro hx; exact ⟨rfl, rfl⟩)
        | (intro hx; rfl)
        | (intro hx; exact absurd rfl hx)
        | (intro hx; simp at hx)
        | simp [hinv, List.sum_append]
  · intro s d' h
    unfold RendererData.pull_frame at h
    split at h
    · -- flush mode with an empty queue: Pull_Flush, state unchanged
      simp only [Option.some.injEq, Prod.mk.injEq] at h
      obtain ⟨hs, hd'⟩ := h
      subst hs; subst hd'
      exact ⟨hinv, fun hx => absurd hx (by decide), fun _ => rfl⟩
    · split at h
      · -- blocking wait on an empty queue: no return in the sequential model
        exact Option.noConfusion h
      · split at h
        next heq =>
          -- non-blocking pull from an empty queue
          simp only [Option.some.injEq, Prod.mk.injEq] at h
          obtain ⟨hs, hd'⟩ := h
          subst hd'
          refine ⟨hinv, fun hx => ?_, fun _ => rfl⟩
          rw [hx] at hs
          split at hs <;> exact PullStatus.noConfusion hs
        next m rest heq =>
          -- the head task is removed
          simp only [Option.some.injEq, Prod.mk.injEq] at h
          obtain ⟨hs, hd'⟩ := h
          subst hs; subst hd'
          have hsum : d.task_queue_memory = m + rest.sum := by
            rw [hinv, heq]; simp
          refine ⟨?_, fun _ => ⟨?_, ?_, ?_⟩, fun hx => absurd rfl hx⟩
          · show d.task_queue_memory - m = rest.sum
            omega
          · rw [heq]; simp
          · show rest = d.task_queue.tail
            rw [heq]
            rfl
          · show d.task_queue_memory - m = d.task_queue_memory - d.task_queue.headD 0
            rw [heq]
            rfl

/-- C10 witness: the push conjunct applied to a concrete state — pushing
a 5-byte task into the empty queue. -/
theorem task_queue_memory_accounting_witness :
    (RendererData.mk false 5 [5]).task_queue_memory =
        (RendererData.mk false 5 [5]).task_queue.sum
    ∧ (PushStatus.Push_Success = .Push_Success →
        (RendererData.mk false 5 [5]).task_queue =
            RendererData.init.task_queue ++ [5]
        ∧ (RendererData.mk false 5 [5]).task_queue_memory =
            RendererData.init.task_queue_memory + 5)
    ∧ (PushStatus.Push_Success ≠ .Push_Success →
        RendererData.mk false 5 [5] = RendererData.init) :=
  (task_queue_memory_accounting RendererData.init 5 false rfl).1
    .Push_Success (RendererData.mk false 5 [5]) (by decide)

/-! ### C8: timestamps are monotone under advance -/

theorem Scal.le_refl' (a : Scal) : a ≤ a :=
  Int.le_refl _

theorem Scal.le_of_lt' {a b : Scal} (h : a < b) : a ≤ b :=
  Int.le_of_lt h

theorem Scal.le_trans' {a b c : Scal} (h1 : a ≤ b) (h2 : b ≤ c) : a ≤ c := by
  have H1 : a.num * 2 ^ b.exp ≤ b.num * 2 ^ a.exp := h1
  have H2 : b.num * 2 ^ c.exp ≤ c.num * 2 ^ b.exp := h2
  show Scal.le a c
  unfold Scal.le
  have hb : (0 : Int) < 2 ^ b.exp := by positivity
  have K1 := mul_le_mul_of_nonneg_right H1
    (le_of_lt (show (0 : Int) < 2 ^ c.exp by positivity))
  have K2 := mul_le_mul_of_nonneg_right H2
    (le_of_lt (show (0 : Int) < 2 ^ a.exp by positivity))
  have K3 : a.num * 2 ^ c.exp * 2 ^ b.exp ≤ c.num * 2 ^ a.exp * 2 ^ b.exp := by
    nlinarith
  exact le_of_mul_le_mul_right K3 hb

/-- One `advance()` call never decreases the last-applied timestamp: it
either leaves it unchanged or raises it to the head event's time. -/
theorem advanceStep_timestamp_le (st : Styles) (r : VbcReader) :
    r.timestamp_ ≤ (r.advanceStep st).timestamp_ := by
  unfold VbcReader.advanceStep
  rcases hA : r.advance st with ⟨err, r'⟩ | ⟨b, r'⟩ <;> dsimp only
  all_goals
    unfold VbcReader.advance at hA
  all_goals
    repeat' split at hA
  any_goals exact Except.noConfusion hA
  all_goals
    simp only [Except.ok.injEq, Except.error.injEq, Prod.mk.injEq] at hA
  all_goals
    obtain ⟨h1, h2⟩ := hA
  all_goals
    subst h2
  all_goals
    first
      | exact Scal.le_refl' _
      | exact Scal.le_of_lt' (by assumption)

/-- C8: over any sequence of `advance()` calls, `get_timestamp()` is
non-decreasing — each applied event only raises the timestamp to the
maximum of the current value and the event time, and sentinel, empty and
failing calls leave it unchanged. This holds with no assumption on the
event times (they may decrease). -/
theorem get_timestamp_monotone (st : Styles) (r : VbcReader) {n m : Nat}
    (h : n ≤ m) :
    (VbcReader.advanceIter st n r).get_timestamp ≤
      (VbcReader.advanceIter st m r).get_timestamp := by
  unfold VbcReader.get_timestamp
  induction h with
  | refl => exact Scal.le_refl' _
  | step hk ih =>
    exact Scal.le_trans' ih (advanceStep_timestamp_le st _)

/-- C8 witness: on the reader whose two queued events have decreasing
times (5 then 3), the timestamp after two advances is still no smaller
than at the start. -/
theorem get_timestamp_monotone_witness :
    (VbcReader.advanceIter defaultStyles 0 exDecReader).get_timestamp ≤
      (VbcReader.advanceIter defaultStyles 2 exDecReader).get_timestamp :=
  get_timestamp_monotone defaultStyles exDecReader (by decide)

/-! ### C5 (amended): sequence number 0 -/

/-- C5 amended: sequence number 0 is not reserved as a node id —
`add_node` with id 0 succeeds whenever 0 is currently unassigned and the
category is in range, appending node 0 to the top-level children list; 0
is special only in parent position, where `parent_seqnum = 0` means "no
parent". -/
theorem add_node_zero_amended (st : Styles) (t : Tree) (cat : Nat)
    (h0 : t.node? 0 = none) (hcat : cat < st.node_style_table_size) :
    (t.add_node st 0 0 cat).map
        (fun t' => ((t'.node? 0).map (·.parent_), t'.children_)) =
      .ok (some (some none), t.children_ ++ [0]) := by
  rcases hidx : t.index_ with _ | ⟨a, l⟩ <;>
    rcases hb : t.base_stale_ <;>
    simp_all [Tree.add_node, Tree.set_parent, Tree.markStale, Tree.baseStale,
      Tree.setChildrenOf, Tree.childrenOf, Tree.node?, Tree.setNode,
      Tree.modifyNode, Tree.depthOf, Node.new] <;>
    rw [if_neg (Nat.not_le.mpr hcat)] <;>
    simp [Except.map]

/-- C5 witness: the amended statement at the empty tree with category
0. -/
theorem add_node_zero_amended_witness :
    (Tree.init.add_node defaultStyles 0 0 0).map
        (fun t' => ((t'.node? 0).map (·.parent_), t'.children_)) =
      .ok (some (some none), Tree.init.children_ ++ [0]) :=
  add_node_zero_amended defaultStyles Tree.init 0 (by decide) (by decide)

/-! ### C6: apply/revert round trip -/

theorem szSub_append {a b : Nat} (h : a + b < 2 ^ 64) : szSub (a + b) b = a := by
  have e64 : (2 : Nat) ^ 64 = 18446744073709551616 := by norm_num
  unfold szSub
  rw [e64] at h ⊢
  omega

theorem take_append_szSub {α : Type} (x y : List α)
    (h : x.length + y.length < 2 ^ 64) :
    (x ++ y).take (szSub (x ++ y).length y.length) = x := by
  rw [List.length_append, szSub_append h, List.take_left]

/-- C6: for each of the four capturing event kinds, `revert` immediately
after a successful `apply` restores the captured attribute: the node's
category for SetCategory, both info texts for SetInfo and AppendInfo
(whose `strip_info` truncates by the appended lengths), and the targeted
bound for SetBound (whose round trip restores the whole tree). -/
theorem event_apply_revert_roundtrip (st : Styles) :
    (∀ sq tm ns nc oc (t : Tree) nd,
      t.node? ns = some nd → nc < st.node_style_table_size →
      nd.cat_ < st.node_style_table_size →
      ∀ ev' t',
        Event.apply st ⟨sq, tm, .setCategory ns nc oc⟩ t = .ok (ev', t') →
        (Event.revert st ev' t').map (fun t2 => (t2.node? ns).map (·.cat_)) =
          .ok (some nd.cat_))
    ∧ (∀ sq tm ns mi gi omi ogi (t : Tree) nd,
      t.node? ns = some nd →
      ∀ ev' t',
        Event.apply st ⟨sq, tm, .setInfo ns mi gi omi ogi⟩ t = .ok (ev', t') →
        (Event.revert st ev' t').map
            (fun t2 => (t2.node? ns).map (fun n => (n.minfo_, n.ginfo_))) =
          .ok (some (nd.minfo_, nd.ginfo_)))
    ∧ (∀ sq tm ns mi gi (t : Tree) nd,
      t.node? ns = some nd →
      nd.minfo_.length + mi.length < 2 ^ 64 →
      nd.ginfo_.length + gi.length < 2 ^ 64 →
      ∀ ev' t',
        Event.apply st ⟨sq, tm, .appendInfo ns mi gi⟩ t = .ok (ev', t') →
        (Event.revert st ev' t').map
            (fun t2 => (t2.node? ns).map (fun n => (n.minfo_, n.ginfo_))) =
          .ok (some (nd.minfo_, nd.ginfo_)))
    ∧ (∀ sq tm w nb ob (t : Tree),
      ∀ ev' t',
        Event.apply st ⟨sq, tm, .setBound w nb ob⟩ t = .ok (ev', t') →
        Event.revert st ev' t' = .ok t) := by
  refine ⟨?_, ?_, ?_, ?_⟩
  · intro sq tm ns nc oc t nd hnd hnc holdc ev' t' happ
    have hlt := node?_isSome_lt hnd
    unfold Event.apply at happ
    dsimp only at happ
    rw [hnd] at happ
    unfold Tree.set_category at happ
    rw [if_neg (Nat.not_le.mpr hnc), hnd] at happ
    dsimp only [Except.map] at happ
    simp only [Except.ok.injEq, Prod.mk.injEq] at happ
    obtain ⟨he, ht⟩ := happ
    subst he; subst ht
    unfold Event.revert
    dsimp only
    unfold Tree.set_category
    rw [if_neg (Nat.not_le.mpr holdc), node?_setNode_self _ hlt]
    dsimp only [Except.map]
    rw [node?_setNode_self _ (by simpa [Tree.setNode] using hlt)]
    rfl
  · intro sq tm ns mi gi omi ogi t nd hnd ev' t' happ
    have hlt := node?_isSome_lt hnd
    unfold Event.apply at happ
    dsimp only at happ
    rw [hnd] at happ
    simp only [Except.ok.injEq, Prod.mk.injEq] at happ
    obtain ⟨he, ht⟩ := happ
    subst he; subst ht
    unfold Event.revert
    dsimp only
    rw [node?_setNode_self _ hlt]
    dsimp only [Except.map]
    rw [node?_setNode_self _ (by simpa [Tree.setNode] using hlt)]
    rfl
  · intro sq tm ns mi gi t nd hnd hm hg ev' t' happ
    have hlt := node?_isSome_lt hnd
    unfold Event.apply at happ
    dsimp only at happ
    rw [hnd] at happ
    simp only [Except.ok.injEq, Prod.mk.injEq] at happ
    obtain ⟨he, ht⟩ := happ
    subst he; subst ht
    unfold Event.revert
    dsimp only
    rw [node?_setNode_self _ hlt]
    dsimp only [Except.map]
    rw [node?_setNode_self _ (by simpa [Tree.setNode] using hlt)]
    unfold Node.add_info Node.strip_info
    dsimp only
    rw [take_append_szSub _ _ (by simpa using hm),
      take_append_szSub _ _ (by simpa using hg)]
    rfl
  · intro sq tm w nb ob t ev' t' happ
    unfold Event.apply at happ
    rcases w <;> dsimp only at happ <;>
      (simp only [Except.ok.injEq, Prod.mk.injEq] at happ
       obtain ⟨he, ht⟩ := happ
       subst he
       subst ht
       rfl)

/-- C6 witness: the SetBound conjunct at a concrete instance — applying a
lower-bound event on the empty tree and reverting it restores the tree
exactly. -/
theorem event_apply_revert_roundtrip_witness :
    Event.revert defaultStyles
        ⟨0, 1, .setBound .Lower 7 (some Tree.init.lb_)⟩
        (Tree.init.set_lower_bound (.val 7)) = .ok Tree.init :=
  (event_apply_revert_roundtrip defaultStyles).2.2.2 0 1 .Lower 7 none Tree.init
    ⟨0, 1, .setBound .Lower 7 (some Tree.init.lb_)⟩
    (Tree.init.set_lower_bound (.val 7)) (by decide)

/-! ### C4 (amended): the cached bounding rectangle -/

/-- `aggWalk` and its point recorder `aggWalkPoints` run the same
traversal: they return the same tree, and the rectangle `aggWalk`
produces is exactly the fold of `rectJoin` over the recorded points. -/
theorem aggWalk_points_agree (st : Styles) :
    ∀ (fuel : Nat) (t : Tree) (c d : Nat) (bbox : Rect) (t' : Tree) (bbox' : Rect)
      (tp : Tree) (pts : List (Scal × Option Scal)),
      Tree.aggWalk st fuel t c d bbox = some (t', bbox') →
      Tree.aggWalkPoints st fuel t c d = some (tp, pts) →
      tp = t' ∧ bbox' = pts.foldl rectJoin bbox := by
  intro fuel
  induction fuel with
  | zero =>
    intro t c d bbox t' bbox' tp pts hW hP
    exact Option.noConfusion hW
  | succ n ih =>
    intro t c d bbox t' bbox' tp pts hW hP
    unfold Tree.aggWalk at hW
    unfold Tree.aggWalkPoints at hP
    by_cases hdc : d = c
    · rw [if_pos hdc] at hW hP
      simp only [Option.some.injEq, Prod.mk.injEq] at hW hP
      obtain ⟨hW1, hW2⟩ := hW
      obtain ⟨hP1, hP2⟩ := hP
      subst hW1
      subst hW2
      subst hP1
      subst hP2
      exact ⟨rfl, rfl⟩
    · rw [if_neg hdc] at hW hP
      dsimp only at hW hP
      rcases hnx : Tree.aggNext n (Tree.aggAssign st t d) c d with _ | d'
      · rw [hnx] at hW
        exact Option.noConfusion hW
      · rw [hnx] at hW hP
        dsimp only at hW hP
        rcases hrec : Tree.aggWalkPoints st n (Tree.aggAssign st t d) c d' with _ | ⟨t2, ps⟩
        · rw [hrec] at hP
          exact Option.noConfusion hP
        · rw [hrec] at hP
          dsimp only at hP
          simp only [Option.some.injEq, Prod.mk.injEq] at hP
          obtain ⟨hP1, hP2⟩ := hP
          subst hP1
          subst hP2
          have hih := ih (Tree.aggAssign st t d) c d' _ t' bbox' t2 ps hW hrec
          exact ⟨hih.1, hih.2⟩

/-- `aggChildren` and its point recorder `aggChildrenPoints` run the same
loop: same resulting tree, and the rectangle is the fold of `rectJoin`
over the recorded points. -/
theorem aggChildren_points_agree (st : Styles) (fuel : Nat) :
    ∀ (l : List Nat) (t : Tree) (bbox : Rect) (t' : Tree) (bbox' : Rect)
      (tp : Tree) (pts : List (Scal × Option Scal)),
      Tree.aggChildren st fuel t l bbox = some (t', bbox') →
      Tree.aggChildrenPoints st fuel t l = some (tp, pts) →
      tp = t' ∧ bbox' = pts.foldl rectJoin bbox := by
  intro l
  induction l with
  | nil =>
    intro t bbox t' bbox' tp pts hW hP
    unfold Tree.aggChildren at hW
    unfold Tree.aggChildrenPoints at hP
    simp only [Option.some.injEq, Prod.mk.injEq] at hW hP
    obtain ⟨hW1, hW2⟩ := hW
    obtain ⟨hP1, hP2⟩ := hP
    subst hW1
    subst hW2
    subst hP1
    subst hP2
    exact ⟨rfl, rfl⟩
  | cons c rest ih =>
    intro t bbox t' bbox' tp pts hW hP
    unfold Tree.aggChildren at hW
    unfold Tree.aggChildrenPoints at hP
    dsimp only at hW hP
    by_cases hemp : Tree.childrenOf (Tree.aggAssignTop t c) (some c) = []
    · rw [if_pos hemp] at hW hP
      rcases hrec : Tree.aggChildrenPoints st fuel (Tree.aggAssignTop t c) rest
          with _ | ⟨t2, ps⟩
      · rw [hrec] at hP
        exact Option.noConfusion hP
      · rw [hrec] at hP
        dsimp only at hP
        simp only [Option.some.injEq, Prod.mk.injEq] at hP
        obtain ⟨hP1, hP2⟩ := hP
        subst hP1
        subst hP2
        have hih := ih (Tree.aggAssignTop t c) _ t' bbox' t2 ps hW hrec
        exact ⟨hih.1, hih.2⟩
    · rw [if_neg hemp] at hW hP
      rcases hw1 : Tree.aggWalk st fuel (Tree.aggAssignTop t c) c
          ((Tree.childrenOf (Tree.aggAssignTop t c) (some c)).headD 0) _
          with _ | ⟨t1', b1⟩
      · rw [hw1] at hW
        exact Option.noConfusion hW
      · rw [hw1] at hW
        dsimp only at hW
        rcases hp1 : Tree.aggWalkPoints st fuel (Tree.aggAssignTop t c) c
            ((Tree.childrenOf (Tree.aggAssignTop t c) (some c)).headD 0)
            with _ | ⟨t1, ps1⟩
        · rw [hp1] at hP
          exact Option.noConfusion hP
        · rw [hp1] at hP
          dsimp only at hP
          obtain ⟨he1, he2⟩ := aggWalk_points_agree st fuel _ _ _ _ _ _ _ _ hw1 hp1
          subst he1
          rcases hp2 : Tree.aggChildrenPoints st fuel t1 rest with _ | ⟨t2, ps2⟩
          · rw [hp2] at hP
            exact Option.noConfusion hP
          · rw [hp2] at hP
            dsimp only at hP
            simp only [Option.some.injEq, Prod.mk.injEq] at hP
            obtain ⟨hP1, hP2⟩ := hP
            subst hP1
            subst hP2
            have hih := ih t1 b1 t' bbox' t2 ps2 hW hp2
            refine ⟨hih.1, ?_⟩
            rw [List.foldl_cons, List.foldl_append]
            rw [hih.2, he2]
            rfl

/-- Folding `rectJoin` takes `x0` to the running minimum of the joined
x coordinates. -/
theorem foldl_rectJoin_x0 :
    ∀ (pts : List (Scal × Option Scal)) (b : Rect),
      (pts.foldl rectJoin b).x0 =
        pts.foldl (fun a p => Ext.min a (.val p.1)) b.x0 := by
  intro pts
  induction pts with
  | nil => intro b; rfl
  | cons p rest ih => intro b; exact ih (rectJoin b p)

/-- Folding `rectJoin` takes `x1` to the running maximum of the joined
x coordinates. -/
theorem foldl_rectJoin_x1 :
    ∀ (pts : List (Scal × Option Scal)) (b : Rect),
      (pts.foldl rectJoin b).x1 =
        pts.foldl (fun a p => Ext.max a (.val p.1)) b.x1 := by
  intro pts
  induction pts with
  | nil => intro b; rfl
  | cons p rest ih => intro b; exact ih (rectJoin b p)

/-- Folding `rectJoin` never changes `y0`. -/
theorem foldl_rectJoin_y0 :
    ∀ (pts : List (Scal × Option Scal)) (b : Rect),
      (pts.foldl rectJoin b).y0 = b.y0 := by
  intro pts
  induction pts with
  | nil => intro b; rfl
  | cons p rest ih => intro b; exact ih (rectJoin b p)

/-- Folding `rectJoin` takes `y1` to the running maximum of the joined
y coordinates (points without a y component — the top-level children,
whose row is `y = 0` — are skipped, exactly as in the loop). -/
theorem foldl_rectJoin_y1 :
    ∀ (pts : List (Scal × Option Scal)) (b : Rect),
      (pts.foldl rectJoin b).y1 =
        (pts.filterMap Prod.snd).foldl (fun a y => Ext.max a (.val y)) b.y1 := by
  intro pts
  induction pts with
  | nil => intro b; rfl
  | cons p rest ih =>
    intro b
    rcases p with ⟨x, o⟩
    rcases o with _ | y
    · exact ih (rectJoin b (x, none))
    · exact ih (rectJoin b (x, some y))

/-- C4 amended: after a (non-short-circuited) successful
`update_layout()`, the cached bounding rectangle is exactly the min/max
envelope of the node center positions assigned by the aggregate pass,
with no radius expansion on any side: it is the fold of `rectJoin` over
the recorded assignments starting from `(+inf, 0, -inf, 0)`, so `x0` and
`x1` are the running min/max of all assigned x positions (from `+inf` /
`-inf`), `y1` is the running max of the assigned descendant y positions
(from 0; top-level children sit on the row `y = 0`), and `y0` stays
pinned at the initial 0 — never `-radius`. The radius expansion happens
later, in the renderer (`draw_processed_tree` inflates the received
rectangle by `tree_node_radius`). -/
theorem update_layout_bbox_envelope (st : Styles) (fuel : Nat)
    (t t1 t2 t' tp : Tree) (bbox : Rect) (pts : List (Scal × Option Scal))
    (hstale : t.stale_ = true)
    (hloc : t.local_layout st fuel = some t1)
    (hagg : t1.aggregate_layout st fuel = some (t2, bbox))
    (hpts : t1.aggregatePoints st fuel = some (tp, pts))
    (h : t.update_layout st fuel = some t') :
    t' = { t2 with bbox_ := bbox, stale_ := false }
    ∧ t'.bbox_ = pts.foldl rectJoin ⟨.pinf, .val 0, .ninf, .val 0⟩
    ∧ t'.bbox_.x0 = pts.foldl (fun a p => Ext.min a (.val p.1)) .pinf
    ∧ t'.bbox_.x1 = pts.foldl (fun a p => Ext.max a (.val p.1)) .ninf
    ∧ t'.bbox_.y1 =
        (pts.filterMap Prod.snd).foldl (fun a y => Ext.max a (.val y)) (.val 0)
    ∧ t'.bbox_.y0 = .val 0 := by
  unfold Tree.update_layout at h
  rw [hstale] at h
  simp only [Bool.not_true, Bool.false_eq_true, if_false, hloc, hagg,
    Option.some.injEq] at h
  subst h
  unfold Tree.aggregate_layout at hagg
  unfold Tree.aggregatePoints at hpts
  obtain ⟨_, hbb⟩ := aggChildren_points_agree st fuel _ _ _ _ _ _ _ hagg hpts
  refine ⟨rfl, hbb, ?_, ?_, ?_, ?_⟩
  · show bbox.x0 = _
    rw [hbb, foldl_rectJoin_x0]
  · show bbox.x1 = _
    rw [hbb, foldl_rectJoin_x1]
  · show bbox.y1 = _
    rw [hbb, foldl_rectJoin_y1]
  · show bbox.y0 = _
    rw [hbb, foldl_rectJoin_y0]

/-- C4 witness: the amended envelope statement at the single-node tree.
The recorded points of the aggregate pass and the resulting rectangle
are computed concretely, every hypothesis is discharged by evaluation,
and the conclusion is the instantiated conjunction. -/
theorem update_layout_bbox_envelope_witness :
    exSingleLaidOut = { exSingleAgg.1 with bbox_ := exSingleAgg.2, stale_ := false }
    ∧ exSingleLaidOut.bbox_ = exSinglePts.2.foldl rectJoin ⟨.pinf, .val 0, .ninf, .val 0⟩
    ∧ exSingleLaidOut.bbox_.x0 =
        exSinglePts.2.foldl (fun a p => Ext.min a (.val p.1)) .pinf
    ∧ exSingleLaidOut.bbox_.x1 =
        exSinglePts.2.foldl (fun a p => Ext.max a (.val p.1)) .ninf
    ∧ exSingleLaidOut.bbox_.y1 =
        (exSinglePts.2.filterMap Prod.snd).foldl (fun a y => Ext.max a (.val y)) (.val 0)
    ∧ exSingleLaidOut.bbox_.y0 = .val 0 :=
  update_layout_bbox_envelope defaultStyles 100 exSingle exSingleLocal
    exSingleAgg.1 exSingleLaidOut exSinglePts.1 exSingleAgg.2 exSinglePts.2
    (by decide) (by decide) (by decide) (by decide) (by decide)

end Vbc

